import Mathlib

/-!
Shallow embedding of the zebranoise Perlin-stimulus engine
(`zebranoise/perlin_stimulus.py` together with `zebranoise/util.py`),
and proofs about its batching, caching, normalisation, filtering and
assembly behaviour.

Modelling conventions, used throughout:

* Python/numpy floating-point values are modelled as exact rationals;
  the float16 rounding applied when a batch is persisted to disk is not
  modelled (cached values are kept exact).
* The external C noise routine `_perlin.make_perlin` is an opaque
  collaborator and is a parameter (`Sampler`) of every definition that
  needs it; likewise numpy's Mersenne-Twister stream after
  `np.random.seed(1234)` is an opaque parameter `r : ℕ → ℚ` (the source
  reseeds identically before every use, so every use sees the same
  stream, which is what sharing one `r` expresses).
* A numpy 3-d array is modelled as a total function `ℕ → ℕ → ℕ → ℚ`
  indexed (row y, column x, time j) together with its explicit time
  extent; the spatial extent is given by the engine parameters.  Values
  of the function outside the declared extents are irrelevant junk.
* Batch files of one cache key are numbered densely from 0; the
  filesystem state for a key is modelled as the dense list of its batch
  arrays (index = batch number), which is exactly what the source's
  `while os.path.isfile(self.cache_filename(k)): k += 1` scans traverse.
-/

namespace ZebraNoise

/-- Demean mode: the `demean` argument of `PerlinStimulus.__init__`
(`assert demean in ["both", "time", "space", "none"]`). -/
inductive Demean where
  | none
  | time
  | space
  | both
deriving DecidableEq

/-- Engine state after `PerlinStimulus.__init__`: the stored generation
parameters (`self.size`, `self.fps`, `self.seed`, `self.xyscale`,
`self.tscale`, `self.levels`, `self.demean`, `self.xscale`,
`self.yscale`).  `tsize` is the already padded third component of
`self.size`. -/
structure Params where
  xsize : ℕ
  ysize : ℕ
  tsize : ℕ
  fps : ℕ
  seed : ℕ
  xyscale : ℚ
  tscale : ℕ
  levels : ℕ
  demean : Demean
  xscale : ℚ
  yscale : ℚ
deriving DecidableEq

/-- Constant `XYSCALEBASE = 100` from `util.py`. -/
def XYSCALEBASE : ℕ := 100

/-- Argument record of one `_perlin.make_perlin` invocation
(`util.generate_frames`, the call on lines 154-162 of `util.py`). -/
structure PerlinArgs where
  xs : List ℚ
  ys : List ℚ
  ts : List ℚ
  octaves : ℕ
  persistence : ℚ
  repeatx : ℕ
  repeaty : ℕ
  repeatz : ℕ
  base : ℕ
deriving DecidableEq

/-- The opaque coherent-noise collaborator: given the argument record it
returns the sampled field, indexed (ix, iy, it) exactly as the raw
`make_perlin` output (before the `swapaxes(0,1)`). -/
def Sampler : Type := PerlinArgs → ℕ → ℕ → ℕ → ℚ

/-- A 3-d array slice of the volume: its time extent `nt` and its values
indexed (row y, column x, local time j). -/
structure Arr where
  nt : ℕ
  val : ℕ → ℕ → ℕ → ℚ

/-- Default array, used only as the junk default of list accessors. -/
def arr_default : Arr := ⟨0, fun _ _ _ => 0⟩

/-- `int(xsize/ysize*XYSCALEBASE)` of `util.generate_frames` (line 153). -/
def ratio_xy (p : Params) : ℕ :=
  (((p.xsize : ℚ) / (p.ysize : ℚ) * (XYSCALEBASE : ℚ)).floor).toNat

/-- x-coordinate array `np.arange(0, xsize)/ysize/xscale` ("Yes, divide
by y size") of `util.generate_frames` (line 154). -/
def xs_coords (p : Params) : List ℚ :=
  (List.range p.xsize).map fun (i : ℕ) => (i : ℚ) / (p.ysize : ℚ) / p.xscale

/-- y-coordinate array `np.arange(0, ysize)/ysize/yscale` of
`util.generate_frames` (line 155). -/
def ys_coords (p : Params) : List ℚ :=
  (List.range p.ysize).map fun (i : ℕ) => (i : ℚ) / (p.ysize : ℚ) / p.yscale

/-- Temporal coordinates `ts_all[timepoints]` where
`ts_all = np.arange(0, tsize)/(tscale*(fps/30))` (lines 151-152 of
`util.py`). -/
def ts_coords (p : Params) (timepoints : List ℕ) : List ℚ :=
  timepoints.map fun (t : ℕ) => (t : ℚ) / ((p.tscale : ℚ) * ((p.fps : ℚ) / 30))

/-- `tunits = int(tsize/(tscale*(fps/30)))` of `util.generate_frames`. -/
def tunits (p : Params) : ℕ :=
  (((p.tsize : ℚ) / ((p.tscale : ℚ) * ((p.fps : ℚ) / 30))).floor).toNat

/-- The full argument record passed to `_perlin.make_perlin` by
`util.generate_frames`. -/
def perlin_args (p : Params) (timepoints : List ℕ) : PerlinArgs :=
  { xs := xs_coords p
  , ys := ys_coords p
  , ts := ts_coords p timepoints
  , octaves := p.levels
  , persistence := p.xyscale
  , repeatx := ratio_xy p
  , repeaty := XYSCALEBASE
  , repeatz := tunits p
  , base := p.seed }

/-- `util.generate_frames`: preprocess the arguments, call the sampler,
and `swapaxes(0,1)` the result, yielding an array indexed (y, x, j) with
one time slice per requested timepoint. -/
def generate_frames (f : Sampler) (p : Params) (timepoints : List ℕ) : Arr :=
  { nt := timepoints.length
  , val := fun y x j => f (perlin_args p timepoints) x y j }

/-- Per-frame spatial mean `np.mean(arr, axis=(0,1))` of a batch: the
mean of frame `j` over the y and x axes. -/
def spatial_mean (p : Params) (a : Arr) (j : ℕ) : ℚ :=
  (∑ y ∈ Finset.range p.ysize, ∑ x ∈ Finset.range p.xsize, a.val y x j) /
    ((p.xsize : ℚ) * (p.ysize : ℚ))

/-- The first-pass demean `arr -= np.mean(arr, axis=(0,1), keepdims=True)`
(`perlin_stimulus.py` lines 170-171 and 134-135): subtract from every
entry of frame `j` that frame's spatial mean. -/
def time_demean (p : Params) (a : Arr) : Arr :=
  { nt := a.nt
  , val := fun y x j => a.val y x j - spatial_mean p a j }

/-- Per-pixel temporal mean `np.mean(arr, axis=2)` of a batch. -/
def temporal_mean (a : Arr) (y x : ℕ) : ℚ :=
  (∑ j ∈ Finset.range a.nt, a.val y x j) / (a.nt : ℚ)

/-- `self.batch_size = int(400000000/(self.size[0]*self.size[1]))`,
rounded up to an even number (`perlin_stimulus.py` lines 86-89). -/
def batch_size (p : Params) : ℕ :=
  let b := 400000000 / (p.xsize * p.ysize)
  if b % 2 = 1 then b + 1 else b

/-- Number of generation batches `int(np.ceil(self.size[2]/self.batch_size))`
(`perlin_stimulus.py` line 164), as a ceiling division. -/
def n_batches (p : Params) : ℕ :=
  (p.tsize + batch_size p - 1) / batch_size p

/-- Frame count of batch `k`: the length of
`range(k*batch_size, min(tsize, (k+1)*batch_size))`. -/
def batch_width (p : Params) (k : ℕ) : ℕ :=
  min p.tsize ((k + 1) * batch_size p) - k * batch_size p

/-- Timepoint list `list(range(k*batch_size, min(tsize,(k+1)*batch_size)))`
of batch `k` (`perlin_stimulus.py` line 167). -/
def batch_tps (p : Params) (k : ℕ) : List ℕ :=
  List.range' (k * batch_size p) (batch_width p k)

/-- First-pass array of batch `k`: the generated frames with, in demean
modes `both` and `time`, the per-frame spatial mean subtracted
(`perlin_stimulus.py` lines 166-171). -/
def first_pass_arr (f : Sampler) (p : Params) (k : ℕ) : Arr :=
  let a := generate_frames f p (batch_tps p k)
  if p.demean = Demean.both ∨ p.demean = Demean.time then time_demean p a else a

/-- The volume-wide mean map
`mean_t = np.sum(means_t*(np.asarray(weights)[:,None,None]), axis=0)/np.sum(weights)`
(`perlin_stimulus.py` line 179): weighted average of the per-batch
per-pixel temporal means, weight = the batch's frame count. -/
def mean_t_map (f : Sampler) (p : Params) (y x : ℕ) : ℚ :=
  (∑ k ∈ Finset.range (n_batches p),
      temporal_mean (first_pass_arr f p k) y x * (batch_width p k : ℚ)) /
    (∑ k ∈ Finset.range (n_batches p), (batch_width p k : ℚ))

/-- Second-pass (rewrite) array of batch `k`: the first-pass array with
the volume-wide mean map subtracted from every frame
(`arr -= mean_t[:,:,None]`, `perlin_stimulus.py` lines 187-192).  The
source reloads the persisted batch here; persistence is exact in this
model, so reloading returns the first-pass array. -/
def space_pass_arr (f : Sampler) (p : Params) (k : ℕ) : Arr :=
  let a := first_pass_arr f p k
  { nt := a.nt
  , val := fun y x j => a.val y x j - mean_t_map f p y x }

/-- The concatenated first-pass volume: global frame `t` of the batched
run lives in batch `t / batch_size` at local index `t % batch_size`. -/
def concat_val (f : Sampler) (p : Params) (y x t : ℕ) : ℚ :=
  (first_pass_arr f p (t / batch_size p)).val y x (t % batch_size p)

/-- Reference definition: the per-pixel temporal mean taken directly
over the whole concatenated first-pass volume (all `tsize` frames at
once).  The engine never materialises this quantity; the point of the
second-pass theorems is that the source's weighted average of per-batch
means (`mean_t_map`) equals it. -/
def volume_temporal_mean (f : Sampler) (p : Params) (y x : ℕ) : ℚ :=
  (∑ t ∈ Finset.range p.tsize, concat_val f p y x t) / (p.tsize : ℚ)

/-- Minimum of a list of rationals, as computed by `np.min` on the
collected values.  `np.min` of an empty array is an error in numpy; the
model returns 0 there, and every use below is on a nonempty list. -/
def list_min : List ℚ → ℚ
  | [] => 0
  | v :: vs => vs.foldl min v

/-- Maximum of a list of rationals (`np.max`); see `list_min` for the
empty case. -/
def list_max : List ℚ → ℚ
  | [] => 0
  | v :: vs => vs.foldl max v

/-- Every value held in a batch array, flattened over the declared
extents. -/
def arr_vals (p : Params) (a : Arr) : List ℚ :=
  (List.range p.ysize).flatMap fun y =>
    (List.range p.xsize).flatMap fun x =>
      (List.range a.nt).map fun j => a.val y x j

/-- Per-batch minima `mins.append(np.min(arr))` collected over a list of
batch arrays. -/
def batch_mins (p : Params) (l : List Arr) : List ℚ :=
  l.map fun a => list_min (arr_vals p a)

/-- Per-batch maxima `maxes.append(np.max(arr))` collected over a list
of batch arrays. -/
def batch_maxes (p : Params) (l : List Arr) : List ℚ :=
  l.map fun a => list_max (arr_vals p a)

/-- The persisted statistics record `{min_, max_, nframes}` stored in the
`..._stats.npz` cache file. -/
structure Stats where
  min_ : ℚ
  max_ : ℚ
  nframes : ℕ
deriving DecidableEq

/-- Filesystem state of one cache key: the optional statistics file and
the dense list of batch files (index = batch number). -/
structure FS where
  stats : Option Stats
  batches : List Arr

/-- The batch files left on disk by a fresh `generate_batch` run: the
first-pass arrays, rewritten by the second (spatial-demean) sweep in
demean modes `both` and `space` (`perlin_stimulus.py` lines 164-194).
The sweep walks the just-written files in increasing index order. -/
def fresh_batches (f : Sampler) (p : Params) : List Arr :=
  if p.demean = Demean.both ∨ p.demean = Demean.space then
    (List.range (n_batches p)).map (space_pass_arr f p)
  else
    (List.range (n_batches p)).map (first_pass_arr f p)

/-- The statistics of a fresh `generate_batch` run: in demean modes
`both` and `space` the per-batch minima/maxima are reset and recomputed
from the rewritten batches (lines 185-196), otherwise they come from the
first-pass batches (lines 172-173, 195-196); either way they are the
minima/maxima over exactly the batch files finally on disk.
`nframes = np.sum(weights)` (line 180). -/
def fresh_stats (f : Sampler) (p : Params) : Stats :=
  { min_ := list_min (batch_mins p (fresh_batches f p))
  , max_ := list_max (batch_maxes p (fresh_batches f p))
  , nframes := ∑ k ∈ Finset.range (n_batches p), batch_width p k }

/-- `PerlinStimulus.generate_batch` (`perlin_stimulus.py` lines 139-201):
if the statistics file exists, load `min_`, `max_` and `nframes` from it
and return immediately; otherwise generate all batches, optionally run
the spatial-demean rewrite sweep, persist batches and statistics and
return them.  The result pairs the new filesystem state with the engine
statistics (`self.min_`, `self.max_`, `self.nframes`). -/
def generate_batch (f : Sampler) (p : Params) (fs : FS) : FS × Stats :=
  match fs.stats with
  | some s => (fs, s)
  | Option.none =>
      ({ stats := some (fresh_stats f p), batches := fresh_batches f p },
       fresh_stats f p)

/-- All values held in the batch files of a filesystem state. -/
def stored_vals (p : Params) (fs : FS) : List ℚ :=
  fs.batches.flatMap (arr_vals p)

/-- Suffix selecting one cache file of a key: the plain `.npy` name, the
`_stats.npz` name, or the `_{batch}.npy` name (`cache_filename`'s
`batch` argument). -/
inductive CacheTag where
  | main
  | stats
  | batch (k : ℕ)
deriving DecidableEq

/-- The tuple whose `str(...)` is md5-hashed by
`PerlinStimulus.cache_filename` (line 107):
`(self.size, self.fps, self.seed, self.xyscale, self.tscale, self.levels, self.demean)`.
Note that `self.xscale` and `self.yscale` are absent. -/
def key_tuple (p : Params) : (ℕ × ℕ × ℕ) × ℕ × ℕ × ℚ × ℕ × ℕ × Demean :=
  ((p.xsize, p.ysize, p.tsize), p.fps, p.seed, p.xyscale, p.tscale, p.levels,
    p.demean)

/-- `PerlinStimulus.cache_filename` (lines 92-112).  The source returns
`perlcache_{md5(str(tuple))}` plus the suffix; two equal tuples hash to
the same digest, so a path is modelled as the hashed tuple contents
paired with the suffix.  (Hash collisions between distinct tuples are an
accepted risk per the design and are not modelled.) -/
def cache_filename (p : Params) (b : CacheTag) :
    ((ℕ × ℕ × ℕ) × ℕ × ℕ × ℚ × ℕ × ℕ × Demean) × CacheTag :=
  (key_tuple p, b)

/-- One file operation performed by `generate_batch`, recording which
cache file of the key is written.  `write_batch k` is `np.save` of batch
`k` (lines 176 and 192); `write_stats_direct` is
`np.savez_compressed(self.cache_filename("stats"), ...)` (line 198),
which opens and writes the final statistics path in place.  The two
temporary-file operations exist in the vocabulary so that their absence
from every trace is a meaningful statement; the source never performs
them. -/
inductive FileOp where
  | write_batch (k : ℕ)
  | write_stats_direct (s : Stats)
  | write_temp (name : ℕ) (s : Stats)
  | rename_temp_to_stats (name : ℕ)
deriving DecidableEq

/-- The ordered file operations of one `generate_batch` call: nothing
when the statistics file already exists; otherwise the first-pass batch
writes in increasing order, then (in demean modes `both` and `space`)
the rewrite-sweep batch writes in increasing order, then the single
direct statistics write, which is last. -/
def generate_batch_trace (f : Sampler) (p : Params) (fs : FS) : List FileOp :=
  match fs.stats with
  | some _ => []
  | Option.none =>
      ((List.range (n_batches p)).map fun k => FileOp.write_batch k) ++
      (if p.demean = Demean.both ∨ p.demean = Demean.space then
        (List.range (n_batches p)).map fun k => FileOp.write_batch k
      else []) ++
      [FileOp.write_stats_direct (fresh_stats f p)]

/-- Modelled from the spec: `store_statistics` is atomic with respect to
partial writes when the statistics content never appears at its final
path through a direct in-place write (only via write-to-temp-then-rename
or an equivalent mechanism).  This predicate is the spec's requirement,
stated over a trace of file operations: no direct write ever targets the
final statistics path. -/
def stats_store_atomic (tr : List FileOp) : Prop :=
  ∀ s : Stats, FileOp.write_stats_direct s ∉ tr

/-- A filter pipeline entry as passed to `save_video`/`generate_frame`:
either a bare name string or a `(name, args...)` tuple.  (The source
also accepts a raw callable as an entry; that injectable-function escape
hatch carries no name and is outside this model.) -/
inductive FiltSpec where
  | str (s : String)
  | tup (s : String) (args : List ℚ)
deriving DecidableEq

/-- Name of a filter pipeline entry. -/
def FiltSpec.name : FiltSpec → String
  | .str s => s
  | .tup s _ => s

/-- Errors of the filter stage: the `raise ValueError("Invalid filter
specified")` fallthrough, a missing positional argument (an IndexError
in the source), and the two filters (`softthresh`, `blur`) whose value
transforms call transcendental or scipy routines outside this rational
model. -/
inductive FilterErr where
  | invalid_filter
  | missing_arg
  | not_modelled
deriving DecidableEq

/-- The flattened tiled pseudo-random sequence
`np.tile(np.random.random(3600), (8,1)).T.flatten()`: entry `m` is
stream value `m / 8`, the 3600 seeded values each repeated over 8
consecutive channels (28800 entries; the source materialises exactly
that many, so indices beyond 28799 are out of range there and unused
here). -/
def ibl_seq (r : ℕ → ℚ) (m : ℕ) : ℚ := r (m / 8)

/-- Truncation of a rational toward zero, as C float-to-int conversion
does for in-range values. -/
def rat_trunc (q : ℚ) : ℤ := if 0 ≤ q then ⌊q⌋ else ⌈q⌉

/-- Conversion to a signed 8-bit integer with wraparound
(`astype(np.int8)`). -/
def to_int8 (q : ℚ) : ℤ := ((rat_trunc q + 128) % 256) - 128

/-- `util.filter_frames` (lines 7-85 of `util.py`): apply the named
filter to an image batch of declared extent `Y × X × im.nt`.  Branches:

* `threshold t`: 1 where value > t else 0.
* `softthresh` and `blur` call `np.exp` resp. scipy's Gaussian filter
  and are outside the rational model (`FilterErr.not_modelled`).
* `comb w`: 1 where `im//w % 2 == 1` (floor division) else 0.
* `invert`: `1 - im`.
* `reverse`: returns `im` unchanged (reordering is done by
  `filter_frames_index_function`).
* `wood w`: `(im % w)/w` with numpy's floored float modulus.
* `center`: `1 - |im - 0.5|*2`.
* `photodiode s` and the `_b2`/`_fusi` presets: overwrite the top-right
  `s × s` corner with 0 on even frames and 1 on odd frames.
* `photodiode_anywhere x y s`: the same stripe at a given position.
* `photodiode_bscope`: the stripe in the bottom-left `100 × 100` corner.
* `photodiode_ibl`: reseed, rebuild the tiled sequence, and overwrite
  the fixed rectangle rows 1425..1499 and columns 1920..1994 of EVERY
  frame `t` with `seq[t] > .5`; note that this branch ignores `args`
  entirely and always slices the sequence from offset 0.
* any other name: `raise ValueError` (`FilterErr.invalid_filter`).

Integer-valued size/position arguments arrive as rationals and are
truncated; numpy slice clamping at array edges is implicit in the
total-function array model. -/
def filter_frames (Y X : ℕ) (r : ℕ → ℚ) (im : Arr) (filt : String)
    (args : List ℚ) : Except FilterErr Arr :=
  if filt = "threshold" then
    match args with
    | t :: _ => .ok ⟨im.nt, fun y x j => if t < im.val y x j then 1 else 0⟩
    | [] => .error .missing_arg
  else if filt = "softthresh" then .error .not_modelled
  else if filt = "comb" then
    match args with
    | w :: _ => .ok ⟨im.nt, fun y x j =>
        if ⌊im.val y x j / w⌋ % 2 = 1 then 1 else 0⟩
    | [] => .error .missing_arg
  else if filt = "invert" then
    .ok ⟨im.nt, fun y x j => 1 - im.val y x j⟩
  else if filt = "reverse" then .ok im
  else if filt = "blur" then .error .not_modelled
  else if filt = "wood" then
    match args with
    | w :: _ => .ok ⟨im.nt, fun y x j =>
        (im.val y x j - w * ⌊im.val y x j / w⌋) / w⟩
    | [] => .error .missing_arg
  else if filt = "center" then
    .ok ⟨im.nt, fun y x j => 1 - |im.val y x j - 1/2| * 2⟩
  else if filt = "photodiode" then
    match args with
    | s :: _ =>
        let sn := (rat_trunc s).toNat
        .ok ⟨im.nt, fun y x j =>
          if y < sn ∧ X - sn ≤ x then (if j % 2 = 0 then 0 else 1)
          else im.val y x j⟩
    | [] => .error .missing_arg
  else if filt = "photodiode_anywhere" then
    match args with
    | ax :: ay :: s :: _ =>
        let xn := (rat_trunc ax).toNat
        let yn := (rat_trunc ay).toNat
        let sn := (rat_trunc s).toNat
        .ok ⟨im.nt, fun y x j =>
          if (yn ≤ y ∧ y < yn + sn) ∧ (xn ≤ x ∧ x < xn + sn) then
            (if j % 2 = 0 then 0 else 1)
          else im.val y x j⟩
    | _ => .error .missing_arg
  else if filt = "photodiode_b2" then
    .ok ⟨im.nt, fun y x j =>
      if y < 125 ∧ X - 125 ≤ x then (if j % 2 = 0 then 0 else 1)
      else im.val y x j⟩
  else if filt = "photodiode_fusi" then
    .ok ⟨im.nt, fun y x j =>
      if y < 75 ∧ X - 75 ≤ x then (if j % 2 = 0 then 0 else 1)
      else im.val y x j⟩
  else if filt = "photodiode_bscope" then
    .ok ⟨im.nt, fun y x j =>
      if Y - 100 ≤ y ∧ x < 100 then (if j % 2 = 0 then 0 else 1)
      else im.val y x j⟩
  else if filt = "photodiode_ibl" then
    .ok ⟨im.nt, fun y x j =>
      if (1500 - 75 ≤ y ∧ y < 1500) ∧ (1995 - 75 ≤ x ∧ x < 1995) then
        (if 1/2 < ibl_seq r j then 1 else 0)
      else im.val y x j⟩
  else .error .invalid_filter

/-- `util.apply_filters` (lines 88-97): fold the filter list over the
array, splitting each entry into name and positional arguments. -/
def apply_filters (Y X : ℕ) (r : ℕ → ℚ) : Arr → List FiltSpec →
    Except FilterErr Arr
  | arr, [] => .ok arr
  | arr, f :: rest =>
      match filter_frames Y X r arr f.name
          (match f with | .str _ => [] | .tup _ as => as) with
      | .error e => .error e
      | .ok arr2 => apply_filters Y X r arr2 rest

/-- `util.filter_frames_index_function` (lines 100-127): the reindexing
function mapping output frame position to source frame index.  If the
filter list contains the entry `"reverse"` it is
`lambda x: nframes - x - 1`, otherwise the identity.  Python ints are
modelled as `ℤ`. -/
def filter_frames_index_function (filters : List FiltSpec) (nframes : ℤ) :
    ℤ → ℤ :=
  if FiltSpec.str "reverse" ∈ filters then fun x => nframes - x - 1
  else fun x => x

/-- `util.discretize` (lines 129-144): `im *= 255` then
`im.astype(np.uint8)`, i.e. truncation toward zero of `v*255` with the
unsigned-8-bit wraparound of the C cast (on the intended domain
`v ∈ [0,1]` this is exactly `⌊v*255⌋`). -/
def discretize (v : ℚ) : ℤ := rat_trunc (v * 255) % 256

/-- Modelled from the spec: the quantisation the spec describes for
assembly, `round(value*255)` (round-half-up to the nearest integer)
truncated to uint8.  Stated for comparison with `discretize`. -/
def spec_round_quantize (v : ℚ) : ℤ := round (v * 255) % 256

/-- The renormalisation of `save_video` (lines 242-243):
`data -= self.min_` then `data *= 1/(self.max_-self.min_)`. -/
def rescale (mn mx v : ℚ) : ℚ := (v - mn) * (1 / (mx - mn))

/-- The running-offset slice `(seq[shift:(shift+n)] > .5).astype(np.int8)`
computed by `save_video` (lines 249-251) for the string form of the
`photodiode_ibl` filter: entry `j` is 1 when sequence entry `shift + j`
exceeds one half, else 0. -/
def video_filter_args (r : ℕ → ℚ) (shift n : ℕ) : List ℚ :=
  (List.range n).map fun j => if 1/2 < ibl_seq r (shift + j) then 1 else 0

/-- The filter loop body of `save_video` (lines 245-261): for each entry
compute the name and the positional arguments — for `photodiode_ibl` the
arguments are the running-offset slice (string form) or the user
sequence sliced at the running offset and cast to int8 (tuple form) —
and call `filter_frames`. -/
def apply_video_filters (Y X : ℕ) (r : ℕ → ℚ) (shift : ℕ) :
    Arr → List FiltSpec → Except FilterErr Arr
  | data, [] => .ok data
  | data, f :: rest =>
      let args : List ℚ :=
        match f with
        | .str s =>
            if s = "photodiode_ibl" then video_filter_args r shift data.nt
            else []
        | .tup s as =>
            if s = "photodiode_ibl" then
              ((as.drop shift).take data.nt).map fun q => ((to_int8 q : ℤ) : ℚ)
            else as
      match filter_frames Y X r data f.name args with
      | .error e => .error e
      | .ok data2 => apply_video_filters Y X r shift data2 rest

/-- An emitted frame: pixel values after discretisation. -/
def Frame : Type := ℕ → ℕ → ℤ

/-- Errors surfaced by `save_video`: the `IOError` when the output file
already exists (line 233-234), or a filter error propagating out of the
pipeline. -/
inductive VidErr where
  | output_exists
  | filt (e : FilterErr)
deriving DecidableEq

/-- The batch loop of `save_video` (lines 239-269): walk the dense batch
files in increasing index order; for each, rescale with the persisted
statistics, run the filter pipeline with the running offset `shift`,
discretise, and emit each frame under index `filtind(i)` where `i` is
the running count of frames emitted so far; then advance `i` and `shift`
by the batch's frame count. -/
def save_video_go (p : Params) (st : Stats) (r : ℕ → ℚ)
    (filters : List FiltSpec) (filtind : ℤ → ℤ) :
    List Arr → ℤ → ℕ → Except VidErr (List (ℤ × Frame))
  | [], _, _ => .ok []
  | a :: rest, i, shift =>
      let data0 : Arr := ⟨a.nt, fun y x j => rescale st.min_ st.max_ (a.val y x j)⟩
      match apply_video_filters p.ysize p.xsize r shift data0 filters with
      | .error e => .error (.filt e)
      | .ok data =>
          let frames : List (ℤ × Frame) :=
            (List.range data.nt).map fun (j : ℕ) =>
              (filtind (i + (j : ℤ)), fun y x => discretize (data.val y x j))
          match save_video_go p st r filters filtind rest (i + (a.nt : ℤ))
              (shift + a.nt) with
          | .error e => .error e
          | .ok tail => .ok (frames ++ tail)

/-- `PerlinStimulus.save_video` (lines 215-278), up to the frame-emission
boundary: fail if the output file already exists, otherwise derive the
reindexing function from the filters and the persisted `nframes`, then
run the batch loop from `i = 0`, `shift = 0`.  The external video
encoder invocation, the `loop`-replication hard links and the scratch
cleanup that follow are outside the modelled boundary (spec §4.4/§6). -/
def save_video (p : Params) (st : Stats) (r : ℕ → ℚ)
    (filters : List FiltSpec) (fs : FS) (output_already_exists : Bool) :
    Except VidErr (List (ℤ × Frame)) :=
  if output_already_exists then .error .output_exists
  else
    save_video_go p st r filters
      (filter_frames_index_function filters (st.nframes : ℤ)) fs.batches 0 0

/-- `PerlinStimulus.generate_frame` (lines 113-137) for a single
timepoint: generate one frame, apply the first-pass demean in modes
`both` and `time`, then apply the filters (the final `squeeze` has no
analogue for function-valued arrays). -/
def generate_frame (f : Sampler) (p : Params) (r : ℕ → ℚ) (t : ℕ)
    (filters : List FiltSpec) : Except FilterErr Arr :=
  let a := generate_frames f p [t]
  apply_filters p.ysize p.xsize r
    (if p.demean = Demean.both ∨ p.demean = Demean.time then time_demean p a
     else a) filters

/-! ### Concrete instances used by individual witnesses and
counterexamples.

All stimulus parameters below satisfy the constructor's eager checks:
`xsize/ysize*100` integral, `xsize ≥ ysize`, `tsize` a multiple of
`tscale` padding already applied, and a spatial extent small enough that
`batch_size` is positive. -/

/-- A 2×1 pixel, 2 frame stimulus with `demean="time"`. -/
def c1_p : Params := ⟨2, 1, 2, 30, 0, 1/5, 50, 10, Demean.time, 1, 1⟩

/-- A sampler whose only nonzero value is 2 at x-index 0, frame 1. -/
def c1_f : Sampler := fun _ ix _ it => if ix = 0 ∧ it = 1 then 2 else 0

/-- A 1×1 pixel, 2 frame stimulus with `demean="time"`. -/
def c1w_p : Params := ⟨1, 1, 2, 30, 0, 1/5, 50, 10, Demean.time, 1, 1⟩

/-- The constantly zero sampler. -/
def c1w_f : Sampler := fun _ _ _ _ => 0

/-- A 1×1 pixel, 2 frame stimulus with `demean="both"`. -/
def c2_p : Params := ⟨1, 1, 2, 30, 0, 1/5, 50, 10, Demean.both, 1, 1⟩

/-- A statistics record as a prior run would have persisted it. -/
def c2_s : Stats := ⟨-3/2, 7/4, 2⟩

/-- A cache state whose statistics file already exists. -/
def c2_fs : FS := ⟨some c2_s, [⟨2, fun _ _ _ => 5⟩]⟩

/-- The constantly zero sampler. -/
def c2_f : Sampler := fun _ _ _ _ => 0

/-- A 1×1 pixel, 2 frame stimulus with `demean="space"`. -/
def c3_p : Params := ⟨1, 1, 2, 30, 0, 1/5, 50, 10, Demean.space, 1, 1⟩

/-- The sampler returning the frame index. -/
def c3_f : Sampler := fun _ _ _ it => (it : ℚ)

/-- The empty cache state. -/
def c3_fs : FS := ⟨Option.none, []⟩

/-- A 3000×1500 pixel stimulus (so the `photodiode_ibl` rectangle is
inside the image), 9 frames. -/
def c4_p : Params := ⟨3000, 1500, 9, 30, 0, 1/5, 50, 10, Demean.none, 1, 1⟩

/-- Persisted statistics for the 9-frame volume. -/
def c4_st : Stats := ⟨0, 1, 9⟩

/-- A concrete instantiation of the seeded random stream: value 0 for
stream index 0 and value 1 afterwards, so the thresholded marker bit
flips between sequence offset 0 and sequence offset 8. -/
def c4_r : ℕ → ℚ := fun m => if m = 0 then 0 else 1

/-- A cache state holding two batch files: 8 frames then 1 frame, all
zero pixels. -/
def c4_fs : FS := ⟨some c4_st, [⟨8, fun _ _ _ => 0⟩, ⟨1, fun _ _ _ => 0⟩]⟩

/-- The filter list exercising the running-offset marker. -/
def c4_filters : List FiltSpec := [FiltSpec.str "photodiode_ibl"]

/-- Junk default for emission-list accessors. -/
def c4_default : ℤ × Frame := (0, fun _ _ => 0)

/-- A 1×1 pixel, 2 frame stimulus with `demean="none"`. -/
def c6w_p : Params := ⟨1, 1, 2, 30, 0, 1/5, 50, 10, Demean.none, 1, 1⟩

/-- The sampler returning the frame index. -/
def c6w_f : Sampler := fun _ _ _ it => (it : ℚ)

/-- A 1×1 pixel, 2 frame stimulus with `demean="none"`. -/
def c6_p : Params := ⟨1, 1, 2, 30, 0, 1/5, 50, 10, Demean.none, 1, 1⟩

/-- The constantly zero sampler: it produces a degenerate (constant)
volume whose persisted minimum equals its maximum. -/
def c6_f : Sampler := fun _ _ _ _ => 0

/-- A 1×1 pixel, 4 frame stimulus with `demean="both"`. -/
def c7_p : Params := ⟨1, 1, 4, 30, 0, 1/5, 50, 10, Demean.both, 1, 1⟩

/-- A statistics record as a prior run would have persisted it. -/
def c7_s : Stats := ⟨0, 1, 4⟩

/-- An inconsistent cache state: the statistics file exists but every
batch file is missing. -/
def c7_fs : FS := ⟨some c7_s, []⟩

/-- The constantly zero sampler. -/
def c7_f : Sampler := fun _ _ _ _ => 0

/-- An arbitrary random stream. -/
def c7_r : ℕ → ℚ := fun _ => 0

/-- A 2×1 pixel, 2 frame stimulus with `demean="time"`. -/
def c7w_p : Params := ⟨2, 1, 2, 30, 0, 1/5, 50, 10, Demean.time, 1, 1⟩

/-- A statistics record as a prior run would have persisted it. -/
def c7w_s : Stats := ⟨-1, 1, 2⟩

/-- An inconsistent cache state: statistics without batch files. -/
def c7w_fs : FS := ⟨some c7w_s, []⟩

/-- The constantly zero sampler. -/
def c7w_f : Sampler := fun _ _ _ _ => 0

/-- An arbitrary random stream. -/
def c7w_r : ℕ → ℚ := fun _ => 0

/-- A 1×1 pixel, 2 frame stimulus with `demean="none"`. -/
def c8_p : Params := ⟨1, 1, 2, 30, 0, 1/5, 50, 10, Demean.none, 1, 1⟩

/-- The constantly zero sampler. -/
def c8_f : Sampler := fun _ _ _ _ => 0

/-- The empty cache state. -/
def c8_fs : FS := ⟨Option.none, []⟩

/-- A 1×1 pixel, 2 frame stimulus with `demean="space"`. -/
def c8w_p : Params := ⟨1, 1, 2, 30, 0, 1/5, 50, 10, Demean.space, 1, 1⟩

/-- The sampler returning the frame index. -/
def c8w_f : Sampler := fun _ _ _ it => (it : ℚ)

/-- The empty cache state. -/
def c8w_fs : FS := ⟨Option.none, []⟩

/-- A 2×1 pixel, 2 frame stimulus. -/
def c10w_p : Params := ⟨2, 1, 2, 30, 0, 1/5, 50, 10, Demean.both, 1, 1⟩

/-- The same stimulus with a different `xscale`. -/
def c10w_q : Params := ⟨2, 1, 2, 30, 0, 1/5, 50, 10, Demean.both, 2, 1⟩

/-- A degenerate 1×1 pixel stimulus. -/
def c10_p : Params := ⟨1, 1, 2, 30, 0, 1/5, 50, 10, Demean.both, 1, 1⟩

/-- The same degenerate stimulus with a different `yscale`: with a
single pixel per axis, every coordinate passed to the sampler is 0, so
this anisotropic rescaling cannot change the sampled noise. -/
def c10_q : Params := ⟨1, 1, 2, 30, 0, 1/5, 50, 10, Demean.both, 1, 2⟩

/-! ### Helper lemmas: list minima and maxima -/

theorem foldl_min_le_init (l : List ℚ) (a : ℚ) : l.foldl min a ≤ a := by
  induction l generalizing a with
  | nil => simp
  | cons b l ih => exact le_trans (ih (min a b)) (min_le_left a b)

theorem foldl_min_le_mem (l : List ℚ) :
    ∀ a b, b ∈ l → l.foldl min a ≤ b := by
  induction l with
  | nil => intro a b hb; cases hb
  | cons c l ih =>
      intro a b hb
      rcases List.mem_cons.mp hb with h | h
      · subst h
        exact le_trans (foldl_min_le_init l (min a b)) (min_le_right a b)
      · exact ih (min a c) b h

theorem foldl_min_mem (l : List ℚ) :
    ∀ a, l.foldl min a = a ∨ l.foldl min a ∈ l := by
  induction l with
  | nil => intro a; left; rfl
  | cons c l ih =>
      intro a
      rcases ih (min a c) with h | h
      · rcases min_choice a c with hc | hc
        · left; rw [List.foldl_cons, h, hc]
        · right; rw [List.foldl_cons, h, hc]; exact List.mem_cons_self c l
      · right; exact List.mem_cons_of_mem c h

theorem list_min_mem (l : List ℚ) (hl : l ≠ []) : list_min l ∈ l := by
  match l with
  | [] => exact absurd rfl hl
  | v :: vs =>
      rcases foldl_min_mem vs v with h | h
      · rw [list_min, h]; exact List.mem_cons_self v vs
      · rw [list_min]; exact List.mem_cons_of_mem v h

theorem list_min_le (l : List ℚ) (b : ℚ) (hb : b ∈ l) : list_min l ≤ b := by
  match l with
  | [] => cases hb
  | v :: vs =>
      rcases List.mem_cons.mp hb with h | h
      · subst h; exact foldl_min_le_init vs b
      · exact foldl_min_le_mem vs v b h

theorem foldl_max_init_le (l : List ℚ) (a : ℚ) : a ≤ l.foldl max a := by
  induction l generalizing a with
  | nil => simp
  | cons b l ih => exact le_trans (le_max_left a b) (ih (max a b))

theorem foldl_max_mem_le (l : List ℚ) :
    ∀ a b, b ∈ l → b ≤ l.foldl max a := by
  induction l with
  | nil => intro a b hb; cases hb
  | cons c l ih =>
      intro a b hb
      rcases List.mem_cons.mp hb with h | h
      · subst h
        exact le_trans (le_max_right a b) (foldl_max_init_le l (max a b))
      · exact ih (max a c) b h

theorem foldl_max_mem (l : List ℚ) :
    ∀ a, l.foldl max a = a ∨ l.foldl max a ∈ l := by
  induction l with
  | nil => intro a; left; rfl
  | cons c l ih =>
      intro a
      rcases ih (max a c) with h | h
      · rcases max_choice a c with hc | hc
        · left; rw [List.foldl_cons, h, hc]
        · right; rw [List.foldl_cons, h, hc]; exact List.mem_cons_self c l
      · right; exact List.mem_cons_of_mem c h

theorem list_max_mem (l : List ℚ) (hl : l ≠ []) : list_max l ∈ l := by
  match l with
  | [] => exact absurd rfl hl
  | v :: vs =>
      rcases foldl_max_mem vs v with h | h
      · rw [list_max, h]; exact List.mem_cons_self v vs
      · rw [list_max]; exact List.mem_cons_of_mem v h

theorem le_list_max (l : List ℚ) (b : ℚ) (hb : b ∈ l) : b ≤ list_max l := by
  match l with
  | [] => cases hb
  | v :: vs =>
      rcases List.mem_cons.mp hb with h | h
      · subst h; exact foldl_max_init_le vs b
      · exact foldl_max_mem_le vs v b h

/-! ### Helper lemmas: array value lists -/

theorem mem_arr_vals (p : Params) (a : Arr) (v : ℚ) :
    v ∈ arr_vals p a ↔
      ∃ y, y < p.ysize ∧ ∃ x, x < p.xsize ∧ ∃ j, j < a.nt ∧ a.val y x j = v := by
  simp [arr_vals, List.mem_flatMap, List.mem_map, List.mem_range]

theorem arr_vals_ne_nil (p : Params) (a : Arr) (hx : 1 ≤ p.xsize)
    (hy : 1 ≤ p.ysize) (hnt : 1 ≤ a.nt) : arr_vals p a ≠ [] := by
  have : a.val 0 0 0 ∈ arr_vals p a :=
    (mem_arr_vals p a _).mpr ⟨0, hy, 0, hx, 0, hnt, rfl⟩
  exact List.ne_nil_of_mem this

theorem getD_map_range {α : Type} (g : ℕ → α) (d : α) (n k : ℕ) (h : k < n) :
    ((List.range n).map g).getD k d = g k := by
  have h2 : k < ((List.range n).map g).length := by simpa using h
  rw [List.getD_eq_getElem _ _ h2, List.getElem_map, List.getElem_range]

/-! ### Helper lemmas: batch splitting arithmetic -/

theorem n_batches_pos (p : Params) (hb : 0 < batch_size p)
    (ht : 1 ≤ p.tsize) : 0 < n_batches p := by
  have h1 : 1 * batch_size p ≤ p.tsize + batch_size p - 1 := by omega
  exact (Nat.le_div_iff_mul_le hb).mpr h1

theorem mul_lt_tsize_of_lt_n_batches (p : Params) (k : ℕ)
    (hb : 0 < batch_size p) (hk : k < n_batches p) :
    k * batch_size p < p.tsize := by
  have h1 : k + 1 ≤ (p.tsize + batch_size p - 1) / batch_size p := hk
  have h2 : (k + 1) * batch_size p ≤ p.tsize + batch_size p - 1 :=
    (Nat.le_div_iff_mul_le hb).mp h1
  have h3 : (k + 1) * batch_size p = k * batch_size p + batch_size p := by ring
  omega

theorem batch_width_pos (p : Params) (k : ℕ) (hb : 0 < batch_size p)
    (hk : k < n_batches p) : 0 < batch_width p k := by
  have h1 : k * batch_size p < p.tsize := mul_lt_tsize_of_lt_n_batches p k hb hk
  have h2 : k * batch_size p < (k + 1) * batch_size p := by
    have : (k + 1) * batch_size p = k * batch_size p + batch_size p := by ring
    omega
  have h3 : k * batch_size p < min p.tsize ((k + 1) * batch_size p) :=
    lt_min h1 h2
  exact Nat.sub_pos_of_lt h3

theorem batch_width_le (p : Params) (k : ℕ) :
    batch_width p k ≤ batch_size p := by
  unfold batch_width
  have h1 : min p.tsize ((k + 1) * batch_size p) ≤ (k + 1) * batch_size p :=
    min_le_right _ _
  have h2 : (k + 1) * batch_size p = k * batch_size p + batch_size p := by ring
  omega

theorem tsize_le_n_batches_mul (p : Params) (hb : 0 < batch_size p) :
    p.tsize ≤ n_batches p * batch_size p := by
  by_contra hcon
  push_neg at hcon
  have h1 : n_batches p * batch_size p + 1 ≤ p.tsize := hcon
  have h2 : (n_batches p + 1) * batch_size p ≤ p.tsize + batch_size p - 1 := by
    have : (n_batches p + 1) * batch_size p
        = n_batches p * batch_size p + batch_size p := by ring
    omega
  have h3 : n_batches p + 1 ≤ n_batches p :=
    (Nat.le_div_iff_mul_le hb).mpr h2
  omega

theorem sum_batch_width_aux (p : Params) (n : ℕ) :
    ∑ k ∈ Finset.range n, batch_width p k
      = min p.tsize (n * batch_size p) := by
  induction n with
  | zero => simp
  | succ n ih =>
      rw [Finset.sum_range_succ, ih]
      rcases le_or_lt p.tsize (n * batch_size p) with h | h
      · have hmin1 : min p.tsize (n * batch_size p) = p.tsize :=
          min_eq_left h
        have hle : p.tsize ≤ (n + 1) * batch_size p := by
          have : n * batch_size p ≤ (n + 1) * batch_size p :=
            Nat.mul_le_mul_right _ (Nat.le_succ n)
          omega
        have hmin2 : min p.tsize ((n + 1) * batch_size p) = p.tsize :=
          min_eq_left hle
        unfold batch_width
        omega
      · have hmin1 : min p.tsize (n * batch_size p) = n * batch_size p :=
          min_eq_right h.le
        have hle : n * batch_size p ≤ min p.tsize ((n + 1) * batch_size p) := by
          have h2 : n * batch_size p ≤ (n + 1) * batch_size p :=
            Nat.mul_le_mul_right _ (Nat.le_succ n)
          exact le_min h.le h2
        unfold batch_width
        omega

theorem sum_batch_width (p : Params) (hb : 0 < batch_size p) :
    ∑ k ∈ Finset.range (n_batches p), batch_width p k = p.tsize := by
  rw [sum_batch_width_aux p]
  exact min_eq_left (tsize_le_n_batches_mul p hb)

theorem sum_over_batches_aux (p : Params) (g : ℕ → ℚ) (n : ℕ) :
    ∑ k ∈ Finset.range n, ∑ j ∈ Finset.range (batch_width p k),
        g (k * batch_size p + j)
      = ∑ t ∈ Finset.range (min p.tsize (n * batch_size p)), g t := by
  induction n with
  | zero => simp
  | succ n ih =>
      rw [Finset.sum_range_succ, ih]
      rcases le_or_lt p.tsize (n * batch_size p) with h | h
      · have hw : batch_width p n = 0 := by
          unfold batch_width
          have : min p.tsize ((n + 1) * batch_size p) ≤ n * batch_size p :=
            le_trans (min_le_left _ _) h
          omega
        have hle : p.tsize ≤ (n + 1) * batch_size p := by
          have : n * batch_size p ≤ (n + 1) * batch_size p :=
            Nat.mul_le_mul_right _ (Nat.le_succ n)
          omega
        rw [hw, min_eq_left h, min_eq_left hle]
        simp
      · have hmin1 : min p.tsize (n * batch_size p) = n * batch_size p :=
          min_eq_right h.le
        have hle : n * batch_size p ≤ min p.tsize ((n + 1) * batch_size p) := by
          have h2 : n * batch_size p ≤ (n + 1) * batch_size p :=
            Nat.mul_le_mul_right _ (Nat.le_succ n)
          exact le_min h.le h2
        have hsplit : min p.tsize ((n + 1) * batch_size p)
            = n * batch_size p + batch_width p n := by
          unfold batch_width
          omega
        rw [hmin1, hsplit, Finset.sum_range_add]

theorem sum_over_batches (p : Params) (hb : 0 < batch_size p) (g : ℕ → ℚ) :
    ∑ k ∈ Finset.range (n_batches p),
        ∑ j ∈ Finset.range (batch_width p k), g (k * batch_size p + j)
      = ∑ t ∈ Finset.range p.tsize, g t := by
  rw [sum_over_batches_aux p g]
  rw [min_eq_left (tsize_le_n_batches_mul p hb)]

/-! ### Helper lemmas: the weighted mean map equals the direct volume mean -/

theorem first_pass_nt (f : Sampler) (p : Params) (k : ℕ) :
    (first_pass_arr f p k).nt = batch_width p k := by
  unfold first_pass_arr
  split
  · simp [time_demean, generate_frames, batch_tps]
  · simp [generate_frames, batch_tps]

theorem first_pass_val_eq_concat (f : Sampler) (p : Params)
    (y x k j : ℕ) (hb : 0 < batch_size p) (hj : j < batch_size p) :
    (first_pass_arr f p k).val y x j
      = concat_val f p y x (k * batch_size p + j) := by
  unfold concat_val
  have hdiv : (k * batch_size p + j) / batch_size p = k := by
    rw [Nat.add_comm, Nat.mul_comm, Nat.add_mul_div_left j k hb,
      Nat.div_eq_of_lt hj, Nat.zero_add]
  have hmod : (k * batch_size p + j) % batch_size p = j := by
    rw [Nat.add_comm, Nat.mul_comm, Nat.add_mul_mod_self_left,
      Nat.mod_eq_of_lt hj]
  rw [hdiv, hmod]

theorem mean_t_map_eq_volume_mean (f : Sampler) (p : Params) (y x : ℕ)
    (hb : 0 < batch_size p) : mean_t_map f p y x = volume_temporal_mean f p y x := by
  unfold mean_t_map volume_temporal_mean
  have hnum : ∑ k ∈ Finset.range (n_batches p),
      temporal_mean (first_pass_arr f p k) y x * (batch_width p k : ℚ)
      = ∑ t ∈ Finset.range p.tsize, concat_val f p y x t := by
    rw [← sum_over_batches p hb (concat_val f p y x)]
    refine Finset.sum_congr rfl ?_
    intro k hk
    have hkn : k < n_batches p := Finset.mem_range.mp hk
    have hw : (0 : ℚ) < (batch_width p k : ℚ) := by
      exact_mod_cast batch_width_pos p k hb hkn
    have hinner : ∑ j ∈ Finset.range (batch_width p k),
        concat_val f p y x (k * batch_size p + j)
        = ∑ j ∈ Finset.range (batch_width p k), (first_pass_arr f p k).val y x j := by
      refine Finset.sum_congr rfl ?_
      intro j hj
      have hjw : j < batch_width p k := Finset.mem_range.mp hj
      have hjb : j < batch_size p := lt_of_lt_of_le hjw (batch_width_le p k)
      exact (first_pass_val_eq_concat f p y x k j hb hjb).symm
    rw [hinner]
    unfold temporal_mean
    rw [first_pass_nt]
    rw [div_mul_cancel₀ _ (ne_of_gt hw)]
  have hden : ∑ k ∈ Finset.range (n_batches p), (batch_width p k : ℚ)
      = (p.tsize : ℚ) := by
    rw [← Nat.cast_sum, sum_batch_width p hb]
  rw [hnum, hden]

/-! ### Helper lemmas: the persisted extrema are the extrema of the
persisted values -/

theorem fresh_batches_length (f : Sampler) (p : Params) :
    (fresh_batches f p).length = n_batches p := by
  unfold fresh_batches
  split <;> simp

theorem fresh_batches_ne_nil (f : Sampler) (p : Params)
    (hb : 0 < batch_size p) (ht : 1 ≤ p.tsize) : fresh_batches f p ≠ [] := by
  have h1 : 0 < (fresh_batches f p).length := by
    rw [fresh_batches_length]
    exact n_batches_pos p hb ht
  intro hc
  rw [hc] at h1
  exact Nat.lt_irrefl 0 h1

theorem fresh_batches_mem_nt (f : Sampler) (p : Params) (a : Arr)
    (ha : a ∈ fresh_batches f p) :
    ∃ k, k < n_batches p ∧ a.nt = batch_width p k := by
  unfold fresh_batches at ha
  rcases (by split at ha
             · exact Or.inl ha
             · exact Or.inr ha :
      a ∈ (List.range (n_batches p)).map (space_pass_arr f p) ∨
      a ∈ (List.range (n_batches p)).map (first_pass_arr f p)) with h | h
  all_goals
    obtain ⟨k, hk, rfl⟩ := List.mem_map.mp h
    refine ⟨k, List.mem_range.mp hk, ?_⟩
  · simp [space_pass_arr, first_pass_nt]
  · exact first_pass_nt f p k

theorem flatMap_min_spec (p : Params) (L : List Arr) (hL : L ≠ [])
    (hne : ∀ a ∈ L, arr_vals p a ≠ []) :
    list_min (batch_mins p L) ∈ L.flatMap (arr_vals p) ∧
      ∀ v ∈ L.flatMap (arr_vals p), list_min (batch_mins p L) ≤ v := by
  have hmins_ne : batch_mins p L ≠ [] := by
    unfold batch_mins
    simpa using hL
  constructor
  · have hmem := list_min_mem (batch_mins p L) hmins_ne
    obtain ⟨a, ha, heq⟩ := List.mem_map.mp hmem
    rw [List.mem_flatMap]
    exact ⟨a, ha, heq ▸ list_min_mem (arr_vals p a) (hne a ha)⟩
  · intro v hv
    obtain ⟨a, ha, hva⟩ := List.mem_flatMap.mp hv
    have h1 : list_min (batch_mins p L) ≤ list_min (arr_vals p a) :=
      list_min_le _ _ (List.mem_map.mpr ⟨a, ha, rfl⟩)
    exact le_trans h1 (list_min_le _ _ hva)

theorem flatMap_max_spec (p : Params) (L : List Arr) (hL : L ≠ [])
    (hne : ∀ a ∈ L, arr_vals p a ≠ []) :
    list_max (batch_maxes p L) ∈ L.flatMap (arr_vals p) ∧
      ∀ v ∈ L.flatMap (arr_vals p), v ≤ list_max (batch_maxes p L) := by
  have hmaxes_ne : batch_maxes p L ≠ [] := by
    unfold batch_maxes
    simpa using hL
  constructor
  · have hmem := list_max_mem (batch_maxes p L) hmaxes_ne
    obtain ⟨a, ha, heq⟩ := List.mem_map.mp hmem
    rw [List.mem_flatMap]
    exact ⟨a, ha, heq ▸ list_max_mem (arr_vals p a) (hne a ha)⟩
  · intro v hv
    obtain ⟨a, ha, hva⟩ := List.mem_flatMap.mp hv
    have h1 : list_max (arr_vals p a) ≤ list_max (batch_maxes p L) :=
      le_list_max _ _ (List.mem_map.mpr ⟨a, ha, rfl⟩)
    exact le_trans (le_list_max _ _ hva) h1

theorem generate_batch_of_none (f : Sampler) (p : Params) (fs : FS)
    (hs : fs.stats = Option.none) :
    generate_batch f p fs
      = ({ stats := some (fresh_stats f p), batches := fresh_batches f p },
         fresh_stats f p) := by
  unfold generate_batch
  rw [hs]

theorem fresh_arr_vals_ne_nil (f : Sampler) (p : Params) (a : Arr)
    (ha : a ∈ fresh_batches f p) (hb : 0 < batch_size p)
    (hx : 1 ≤ p.xsize) (hy : 1 ≤ p.ysize) : arr_vals p a ≠ [] := by
  obtain ⟨k, hk, hnt⟩ := fresh_batches_mem_nt f p a ha
  exact arr_vals_ne_nil p a hx hy (hnt ▸ batch_width_pos p k hb hk)

theorem generate_batch_extrema (f : Sampler) (p : Params) (fs : FS)
    (hs : fs.stats = Option.none) (hb : 0 < batch_size p)
    (hx : 1 ≤ p.xsize) (hy : 1 ≤ p.ysize) (ht : 1 ≤ p.tsize) :
    ((generate_batch f p fs).2.min_ ∈ stored_vals p (generate_batch f p fs).1 ∧
      ∀ v ∈ stored_vals p (generate_batch f p fs).1,
        (generate_batch f p fs).2.min_ ≤ v) ∧
    ((generate_batch f p fs).2.max_ ∈ stored_vals p (generate_batch f p fs).1 ∧
      ∀ v ∈ stored_vals p (generate_batch f p fs).1,
        v ≤ (generate_batch f p fs).2.max_) := by
  rw [generate_batch_of_none f p fs hs]
  have hL : fresh_batches f p ≠ [] := fresh_batches_ne_nil f p hb ht
  have hne : ∀ a ∈ fresh_batches f p, arr_vals p a ≠ [] :=
    fun a ha => fresh_arr_vals_ne_nil f p a ha hb hx hy
  constructor
  · exact flatMap_min_spec p (fresh_batches f p) hL hne
  · exact flatMap_max_spec p (fresh_batches f p) hL hne

/-! ### Helper lemma: the first-pass demean removes each frame's spatial
mean -/

theorem spatial_mean_time_demean (p : Params) (a : Arr) (j : ℕ)
    (hx : 1 ≤ p.xsize) (hy : 1 ≤ p.ysize) :
    spatial_mean p (time_demean p a) j = 0 := by
  have hx0 : ((p.xsize : ℚ)) ≠ 0 := by
    have : (0 : ℚ) < (p.xsize : ℚ) := by exact_mod_cast hx
    exact ne_of_gt this
  have hy0 : ((p.ysize : ℚ)) ≠ 0 := by
    have : (0 : ℚ) < (p.ysize : ℚ) := by exact_mod_cast hy
    exact ne_of_gt this
  unfold spatial_mean time_demean
  simp only
  have h1 : ∀ y, ∑ x ∈ Finset.range p.xsize,
      (a.val y x j - spatial_mean p a j)
      = (∑ x ∈ Finset.range p.xsize, a.val y x j)
        - (p.xsize : ℚ) * spatial_mean p a j := by
    intro y
    rw [Finset.sum_sub_distrib, Finset.sum_const, Finset.card_range,
      nsmul_eq_mul]
  rw [Finset.sum_congr rfl (fun y _ => h1 y), Finset.sum_sub_distrib,
    Finset.sum_const, Finset.card_range, nsmul_eq_mul]
  rw [div_eq_iff (mul_ne_zero hx0 hy0), zero_mul, sub_eq_zero]
  unfold spatial_mean
  field_simp
  ring

/-! ### The claims -/

/-- C1 (amended).  In demean modes `time` and `both` the first
generation pass subtracts, from every entry of every frame, that
frame's mean across the batch's spatial extent
(`arr -= np.mean(arr, axis=(0,1), keepdims=True)`), so after the pass
each frame's spatial mean within the batch is zero; and in mode `time`
these first-pass arrays are exactly the batch files that the run leaves
on disk.  (It is not a per-pixel temporal demean: pixels' time series
keep nonzero means in general, see the counterexample.) -/
theorem c1_first_pass_zeroes_frame_spatial_mean (f : Sampler) (p : Params)
    (fs : FS) (hd : p.demean = Demean.time ∨ p.demean = Demean.both)
    (hx : 1 ≤ p.xsize) (hy : 1 ≤ p.ysize) :
    (∀ k j, spatial_mean p (first_pass_arr f p k) j = 0) ∧
    (p.demean = Demean.time → fs.stats = Option.none →
      (generate_batch f p fs).1.batches
        = (List.range (n_batches p)).map (first_pass_arr f p)) := by
  constructor
  · intro k j
    have hcond : p.demean = Demean.both ∨ p.demean = Demean.time := hd.symm
    have hfp : first_pass_arr f p k
        = time_demean p (generate_frames f p (batch_tps p k)) := by
      unfold first_pass_arr
      rw [if_pos hcond]
    rw [hfp]
    exact spatial_mean_time_demean p _ j hx hy
  · intro hdt hs
    rw [generate_batch_of_none f p fs hs]
    show fresh_batches f p = _
    unfold fresh_batches
    rw [if_neg]
    rw [hdt]
    simp

/-- Witness for C1: the amended theorem applied to a concrete 1×1 pixel
run in mode `time`; frame 0's spatial mean after the first pass is 0. -/
theorem c1_witness :
    (c1w_p.demean = Demean.time ∨ c1w_p.demean = Demean.both) ∧
    spatial_mean c1w_p (first_pass_arr c1w_f c1w_p 0) 0 = 0 :=
  ⟨Or.inl rfl,
    (c1_first_pass_zeroes_frame_spatial_mean c1w_f c1w_p ⟨Option.none, []⟩
      (Or.inl rfl) (by decide) (by decide)).1 0 0⟩

/-- Counterexample to C1 as stated.  A concrete `demean="time"` run on a
2×1 pixel, 2 frame volume: after the first pass the cached batch's pixel
(0,0) has temporal mean 1/2, not 0, so the pass does not remove
per-pixel means across the batch's time extent. -/
theorem c1_counterexample :
    temporal_mean
        (((generate_batch c1_f c1_p ⟨Option.none, []⟩).1.batches).getD 0
          arr_default) 0 0 = 1/2 ∧
    ¬ temporal_mean
        (((generate_batch c1_f c1_p ⟨Option.none, []⟩).1.batches).getD 0
          arr_default) 0 0 = 0 := by
  refine ⟨by with_unfolding_all decide, by with_unfolding_all decide⟩

/-- C2 (confirmed).  When the statistics file already exists under the
cache key, `generate_batch` only loads `min_`, `max_` and `nframes` from
it and returns: the filesystem state is unchanged (in particular every
cached batch file is untouched) and its file-operation trace is empty —
no noise generation, no batch writes. -/
theorem c2_stats_short_circuits_generation (f : Sampler) (p : Params)
    (fs : FS) (s : Stats) (h : fs.stats = some s) :
    generate_batch f p fs = (fs, s) ∧ generate_batch_trace f p fs = [] := by
  constructor
  · unfold generate_batch
    rw [h]
  · unfold generate_batch_trace
    rw [h]

/-- Witness for C2: a concrete cache state with persisted statistics and
one batch file; `generate_batch` returns it unchanged together with the
persisted statistics, and performs no file operation. -/
theorem c2_witness :
    c2_fs.stats = some c2_s ∧
    generate_batch c2_f c2_p c2_fs = (c2_fs, c2_s) ∧
    generate_batch_trace c2_f c2_p c2_fs = [] :=
  ⟨rfl,
    (c2_stats_short_circuits_generation c2_f c2_p c2_fs c2_s rfl).1,
    (c2_stats_short_circuits_generation c2_f c2_p c2_fs c2_s rfl).2⟩

/-- C3 (confirmed).  In demean modes `space` and `both`, after a fresh
run: (a) the batch files on disk are, in increasing index order, exactly
the second-pass rewrites of the per-batch first-pass arrays; (b) each
rewritten value is the first-pass value minus the volume-wide per-pixel
mean — i.e. the weighted average of per-batch temporal means (weight =
batch frame count) that the code subtracts equals the temporal mean of
the whole concatenated volume; and (c) the persisted `min_`/`max_` are
recomputed from the rewritten data: they are attained by and bound all
values finally on disk, independently of the pre-rewrite extrema. -/
theorem c3_spatial_demean_second_pass (f : Sampler) (p : Params) (fs : FS)
    (hd : p.demean = Demean.both ∨ p.demean = Demean.space)
    (hs : fs.stats = Option.none) (hb : 0 < batch_size p)
    (hx : 1 ≤ p.xsize) (hy : 1 ≤ p.ysize) (ht : 1 ≤ p.tsize) :
    ((generate_batch f p fs).1.batches
      = (List.range (n_batches p)).map (space_pass_arr f p)) ∧
    (∀ k, k < n_batches p → ∀ y x j,
      (((generate_batch f p fs).1.batches).getD k arr_default).val y x j
        = (first_pass_arr f p k).val y x j - volume_temporal_mean f p y x) ∧
    (∀ v ∈ stored_vals p (generate_batch f p fs).1,
      (generate_batch f p fs).2.min_ ≤ v ∧ v ≤ (generate_batch f p fs).2.max_) ∧
    (generate_batch f p fs).2.min_ ∈ stored_vals p (generate_batch f p fs).1 ∧
    (generate_batch f p fs).2.max_ ∈ stored_vals p (generate_batch f p fs).1 := by
  have ha : (generate_batch f p fs).1.batches
      = (List.range (n_batches p)).map (space_pass_arr f p) := by
    rw [generate_batch_of_none f p fs hs]
    show fresh_batches f p = _
    unfold fresh_batches
    rw [if_pos hd]
  refine ⟨ha, ?_, ?_, ?_, ?_⟩
  · intro k hk y x j
    rw [ha, getD_map_range _ _ _ _ hk]
    unfold space_pass_arr
    simp only
    rw [mean_t_map_eq_volume_mean f p y x hb]
  · intro v hv
    obtain ⟨⟨_, hminle⟩, _, hmaxle⟩ :=
      generate_batch_extrema f p fs hs hb hx hy ht
    exact ⟨hminle v hv, hmaxle v hv⟩
  · exact (generate_batch_extrema f p fs hs hb hx hy ht).1.1
  · exact (generate_batch_extrema f p fs hs hb hx hy ht).2.1

/-- Witness for C3: the theorem applied to a concrete `demean="space"`
run; the stored batch value at (0,0,0) is the first-pass value minus the
direct volume mean, and the persisted minimum is attained on disk. -/
theorem c3_witness :
    (c3_p.demean = Demean.both ∨ c3_p.demean = Demean.space) ∧
    (((generate_batch c3_f c3_p c3_fs).1.batches).getD 0 arr_default).val 0 0 0
      = (first_pass_arr c3_f c3_p 0).val 0 0 0
        - volume_temporal_mean c3_f c3_p 0 0 ∧
    (generate_batch c3_f c3_p c3_fs).2.min_
      ∈ stored_vals c3_p (generate_batch c3_f c3_p c3_fs).1 :=
  ⟨Or.inr rfl,
    (c3_spatial_demean_second_pass c3_f c3_p c3_fs (Or.inr rfl) rfl
      (by decide) (by decide) (by decide) (by decide)).2.1 0 (by decide) 0 0 0,
    (c3_spatial_demean_second_pass c3_f c3_p c3_fs (Or.inr rfl) rfl
      (by decide) (by decide) (by decide) (by decide)).2.2.2.1⟩

/-- C4 (code bug, evaluated at the failing input).  `save_video` tracks
a running offset `shift` (the cumulative frame count of all previously
processed batches) and computes the slice `seq[shift:shift+n] > .5` for
the `photodiode_ibl` filter — but `filter_frames` discards the arguments
it receives for this filter (they are splatted into `*args`, which its
`photodiode_ibl` branch never reads) and always writes the slice
starting at offset 0.  Concretely, over two cached batches of 8 and 1
frames with a stream that is 0 at index 0 and 1 afterwards: the 9th
emitted frame (second batch, prior cumulative count 8) carries marker
pixel value 0 — `discretize` of thresholded sequence entry 0 — although
the slice `save_video` computed for this batch is `[1]`, which written
as a marker pixel would give `discretize 1 = 255`. -/
theorem c4_running_offset_computed_but_ignored :
    (save_video c4_p c4_st c4_r c4_filters c4_fs false).map
        (fun l => ((l.getD 8 c4_default).1, (l.getD 8 c4_default).2 1425 1920))
      = Except.ok ((8 : ℤ), (0 : ℤ)) ∧
    video_filter_args c4_r 8 1 = [(1 : ℚ)] ∧
    discretize 1 = 255 := by
  refine ⟨by with_unfolding_all rfl, by with_unfolding_all decide,
    by with_unfolding_all decide⟩

/-- C5 (confirmed).  For a filter list containing `"reverse"` and any
frame count `n`, the derived reindexing function maps each `i ∈ [0, n)`
to `n - i - 1`, stays inside `[0, n)`, is an involution there, is
injective and surjective onto `[0, n)`, and the `reverse` entry of the
value-filter stage returns the image batch unchanged. -/
theorem c5_reverse_reindex_involutive_bijection (filters : List FiltSpec)
    (hf : FiltSpec.str "reverse" ∈ filters) (n : ℤ) :
    (∀ i : ℤ, 0 ≤ i → i < n →
      filter_frames_index_function filters n i = n - i - 1 ∧
      (0 ≤ filter_frames_index_function filters n i ∧
        filter_frames_index_function filters n i < n) ∧
      filter_frames_index_function filters n
        (filter_frames_index_function filters n i) = i) ∧
    (∀ i j : ℤ, filter_frames_index_function filters n i
        = filter_frames_index_function filters n j → i = j) ∧
    (∀ j : ℤ, 0 ≤ j → j < n →
      ∃ i, (0 ≤ i ∧ i < n) ∧ filter_frames_index_function filters n i = j) ∧
    (∀ (Y X : ℕ) (r : ℕ → ℚ) (im : Arr) (args : List ℚ),
      filter_frames Y X r im "reverse" args = Except.ok im) := by
  have hgi : ∀ x : ℤ, filter_frames_index_function filters n x = n - x - 1 := by
    intro x
    unfold filter_frames_index_function
    rw [if_pos hf]
  refine ⟨?_, ?_, ?_, ?_⟩
  · intro i h0 hn
    refine ⟨hgi i, ⟨?_, ?_⟩, ?_⟩
    · rw [hgi]
      omega
    · rw [hgi]
      omega
    · rw [hgi, hgi]
      omega
  · intro i j h
    rw [hgi, hgi] at h
    omega
  · intro j h0 hn
    refine ⟨n - j - 1, ⟨by omega, by omega⟩, ?_⟩
    rw [hgi]
    omega
  · intro Y X r im args
    rfl

/-- Witness for C5: the reindexing function of `["reverse"]` with 5
frames sends position 2 to 5 - 2 - 1 and applying it twice returns 2. -/
theorem c5_witness :
    FiltSpec.str "reverse" ∈ [FiltSpec.str "reverse"] ∧
    filter_frames_index_function [FiltSpec.str "reverse"] 5 2 = 5 - 2 - 1 ∧
    filter_frames_index_function [FiltSpec.str "reverse"] 5
      (filter_frames_index_function [FiltSpec.str "reverse"] 5 2) = 2 :=
  ⟨by decide,
   ((c5_reverse_reindex_involutive_bijection [FiltSpec.str "reverse"]
      (by decide) 5).1 2 (by decide) (by decide)).1,
   ((c5_reverse_reindex_involutive_bijection [FiltSpec.str "reverse"]
      (by decide) 5).1 2 (by decide) (by decide)).2.2⟩

/-- C6 (amended).  For a freshly generated volume whose persisted
statistics are nondegenerate (`min_ < max_`), rescaling every cached
value `v` by `(v - min_) * (1/(max_ - min_))` lands in `[0, 1]`, and the
minimum resp. maximum — which are attained somewhere on disk — rescale
to exactly 0 resp. exactly 1.  (For a constant volume `min_ = max_` and
no value rescales to 1, see the counterexample.) -/
theorem c6_rescale_maps_volume_into_unit_interval (f : Sampler)
    (p : Params) (fs : FS) (hs : fs.stats = Option.none)
    (hb : 0 < batch_size p) (hx : 1 ≤ p.xsize) (hy : 1 ≤ p.ysize)
    (ht : 1 ≤ p.tsize)
    (hlt : (generate_batch f p fs).2.min_ < (generate_batch f p fs).2.max_) :
    (∀ v ∈ stored_vals p (generate_batch f p fs).1,
      0 ≤ rescale (generate_batch f p fs).2.min_
          (generate_batch f p fs).2.max_ v ∧
      rescale (generate_batch f p fs).2.min_
          (generate_batch f p fs).2.max_ v ≤ 1) ∧
    (∃ v ∈ stored_vals p (generate_batch f p fs).1,
      rescale (generate_batch f p fs).2.min_
          (generate_batch f p fs).2.max_ v = 0) ∧
    (∃ v ∈ stored_vals p (generate_batch f p fs).1,
      rescale (generate_batch f p fs).2.min_
          (generate_batch f p fs).2.max_ v = 1) := by
  obtain ⟨⟨hminmem, hminle⟩, hmaxmem, hmaxle⟩ :=
    generate_batch_extrema f p fs hs hb hx hy ht
  have hpos : (0:ℚ) < (generate_batch f p fs).2.max_
      - (generate_batch f p fs).2.min_ := sub_pos.mpr hlt
  refine ⟨?_, ⟨(generate_batch f p fs).2.min_, hminmem, ?_⟩,
    ⟨(generate_batch f p fs).2.max_, hmaxmem, ?_⟩⟩
  · intro v hv
    unfold rescale
    constructor
    · exact mul_nonneg (sub_nonneg.mpr (hminle v hv))
        (le_of_lt (one_div_pos.mpr hpos))
    · rw [mul_one_div]
      exact (div_le_one hpos).mpr (sub_le_sub_right (hmaxle v hv) _)
  · unfold rescale
    rw [sub_self, zero_mul]
  · unfold rescale
    rw [mul_one_div]
    exact div_self (ne_of_gt hpos)

/-- Witness for C6: a concrete `demean="none"` run whose two frames hold
0 and 1; the persisted statistics are nondegenerate and some cached
value rescales to exactly 1. -/
theorem c6_witness :
    (generate_batch c6w_f c6w_p ⟨Option.none, []⟩).2.min_
      < (generate_batch c6w_f c6w_p ⟨Option.none, []⟩).2.max_ ∧
    (∃ v ∈ stored_vals c6w_p (generate_batch c6w_f c6w_p ⟨Option.none, []⟩).1,
      rescale (generate_batch c6w_f c6w_p ⟨Option.none, []⟩).2.min_
        (generate_batch c6w_f c6w_p ⟨Option.none, []⟩).2.max_ v = 1) :=
  ⟨by with_unfolding_all decide,
   (c6_rescale_maps_volume_into_unit_interval c6w_f c6w_p ⟨Option.none, []⟩
      rfl (by decide) (by decide) (by decide) (by decide)
      (by with_unfolding_all decide)).2.2⟩

/-- Counterexample to C6 as stated.  A fully generated constant volume
(constantly zero sampler, `demean="none"`): the cache is nonempty but no
cached value rescales to 1, because `min_ = max_` makes the rescale
collapse. -/
theorem c6_counterexample :
    stored_vals c6_p (generate_batch c6_f c6_p ⟨Option.none, []⟩).1 ≠ [] ∧
    ∀ v ∈ stored_vals c6_p (generate_batch c6_f c6_p ⟨Option.none, []⟩).1,
      ¬ rescale (generate_batch c6_f c6_p ⟨Option.none, []⟩).2.min_
          (generate_batch c6_f c6_p ⟨Option.none, []⟩).2.max_ v = 1 := by
  refine ⟨by with_unfolding_all decide, by with_unfolding_all decide⟩

/-- C7 (amended).  The engine has no cache-consistency check: with the
statistics file present but every batch file missing, `generate_batch`
silently loads the statistics and returns with the cache untouched, and
`save_video` silently succeeds emitting zero frames.  Neither operation
raises, regenerates, or otherwise surfaces the inconsistency. -/
theorem c7_inconsistent_cache_not_surfaced (f : Sampler) (r : ℕ → ℚ)
    (p : Params) (s : Stats) (fs : FS) (filters : List FiltSpec)
    (hst : fs.stats = some s) (hbat : fs.batches = []) :
    generate_batch f p fs = (fs, s) ∧
    save_video p s r filters fs false = Except.ok [] := by
  constructor
  · unfold generate_batch
    rw [hst]
  · unfold save_video
    rw [hbat]
    rfl

/-- Witness for C7: the amended theorem at a concrete
statistics-without-batches cache state. -/
theorem c7_witness :
    c7w_fs.stats = some c7w_s ∧ c7w_fs.batches = [] ∧
    generate_batch c7w_f c7w_p c7w_fs = (c7w_fs, c7w_s) ∧
    save_video c7w_p c7w_s c7w_r [] c7w_fs false = Except.ok [] :=
  ⟨rfl, rfl,
   (c7_inconsistent_cache_not_surfaced c7w_f c7w_r c7w_p c7w_s c7w_fs []
      rfl rfl).1,
   (c7_inconsistent_cache_not_surfaced c7w_f c7w_r c7w_p c7w_s c7w_fs []
      rfl rfl).2⟩

/-- Counterexample to C7 as stated.  A concrete cache state whose
statistics file exists while every batch file is missing: batch
generation returns normally with the loaded statistics and video
assembly returns normally with an empty frame sequence — no error of
any kind is raised by either cache-consuming operation. -/
theorem c7_counterexample :
    c7_fs.stats = some c7_s ∧ c7_fs.batches = [] ∧
    generate_batch c7_f c7_p c7_fs = (c7_fs, c7_s) ∧
    save_video c7_p c7_s c7_r [] c7_fs false = Except.ok [] :=
  ⟨rfl, rfl, rfl, rfl⟩

/-- C8 (amended).  A fresh `generate_batch` run persists the statistics
through a single direct `np.savez_compressed` write to the final
statistics path, as the very last file operation of the run; no write to
a temporary location and no rename onto the statistics path ever occurs.
Consequently the write-to-temp-then-rename atomicity discipline the spec
requires (`stats_store_atomic`) fails for every such trace. -/
theorem c8_stats_persisted_by_direct_write (f : Sampler) (p : Params)
    (fs : FS) (hs : fs.stats = Option.none) :
    (generate_batch_trace f p fs).getLast?
      = some (FileOp.write_stats_direct (fresh_stats f p)) ∧
    (∀ m s, FileOp.write_temp m s ∉ generate_batch_trace f p fs) ∧
    (∀ m, FileOp.rename_temp_to_stats m ∉ generate_batch_trace f p fs) ∧
    ¬ stats_store_atomic (generate_batch_trace f p fs) ∧
    (generate_batch f p fs).2 = fresh_stats f p := by
  have htr : generate_batch_trace f p fs
      = ((List.range (n_batches p)).map fun k => FileOp.write_batch k) ++
        (if p.demean = Demean.both ∨ p.demean = Demean.space then
          (List.range (n_batches p)).map fun k => FileOp.write_batch k
        else []) ++
        [FileOp.write_stats_direct (fresh_stats f p)] := by
    unfold generate_batch_trace
    rw [hs]
  have hshape : ∀ e ∈ generate_batch_trace f p fs,
      (∃ k, e = FileOp.write_batch k) ∨
        e = FileOp.write_stats_direct (fresh_stats f p) := by
    intro e he
    rw [htr] at he
    rcases List.mem_append.mp he with h1 | h2
    · rcases List.mem_append.mp h1 with ha | hbm
      · obtain ⟨k, _, rfl⟩ := List.mem_map.mp ha
        exact Or.inl ⟨k, rfl⟩
      · by_cases hc : p.demean = Demean.both ∨ p.demean = Demean.space
        · rw [if_pos hc] at hbm
          obtain ⟨k, _, rfl⟩ := List.mem_map.mp hbm
          exact Or.inl ⟨k, rfl⟩
        · rw [if_neg hc] at hbm
          cases hbm
    · rw [List.mem_singleton] at h2
      exact Or.inr h2
  have hwsd : FileOp.write_stats_direct (fresh_stats f p)
      ∈ generate_batch_trace f p fs := by
    rw [htr]
    exact List.mem_append.mpr (Or.inr (List.mem_singleton.mpr rfl))
  refine ⟨?_, ?_, ?_, ?_, ?_⟩
  · rw [htr]
    exact List.getLast?_concat _
  · intro m s hmem
    rcases hshape _ hmem with ⟨k, hk⟩ | hk <;> simp at hk
  · intro m hmem
    rcases hshape _ hmem with ⟨k, hk⟩ | hk <;> simp at hk
  · intro hat
    exact hat (fresh_stats f p) hwsd
  · rw [generate_batch_of_none f p fs hs]

/-- Witness for C8: the amended theorem at a concrete fresh run; the
last file operation is the direct statistics write and the trace is not
atomic in the spec's sense. -/
theorem c8_witness :
    c8w_fs.stats = Option.none ∧
    (generate_batch_trace c8w_f c8w_p c8w_fs).getLast?
      = some (FileOp.write_stats_direct (fresh_stats c8w_f c8w_p)) ∧
    ¬ stats_store_atomic (generate_batch_trace c8w_f c8w_p c8w_fs) :=
  ⟨rfl,
   (c8_stats_persisted_by_direct_write c8w_f c8w_p c8w_fs rfl).1,
   (c8_stats_persisted_by_direct_write c8w_f c8w_p c8w_fs rfl).2.2.2.1⟩

/-- Counterexample to C8 as stated.  A concrete fresh run whose
file-operation trace contains the direct in-place statistics write (and
no rename): the statistics store is not performed by a
write-to-temp-then-rename (or equivalent) mechanism, so the claimed
atomicity discipline is absent. -/
theorem c8_counterexample :
    generate_batch_trace c8_f c8_p c8_fs
      = [FileOp.write_batch 0,
         FileOp.write_stats_direct (fresh_stats c8_f c8_p)] ∧
    (∀ m, FileOp.rename_temp_to_stats m ∉ generate_batch_trace c8_f c8_p c8_fs) ∧
    ¬ stats_store_atomic (generate_batch_trace c8_f c8_p c8_fs) := by
  have htr : generate_batch_trace c8_f c8_p c8_fs
      = [FileOp.write_batch 0,
         FileOp.write_stats_direct (fresh_stats c8_f c8_p)] := by
    rfl
  refine ⟨htr, ?_, ?_⟩
  · intro m hm
    rw [htr] at hm
    simp at hm
  · intro hat
    refine hat (fresh_stats c8_f c8_p) ?_
    rw [htr]
    simp

/-- C9 (amended).  `discretize` quantises by truncation, not rounding:
on the assembly domain `v ∈ [0, 1]` it computes exactly `⌊v*255⌋`, which
lies in `[0, 255]` and satisfies the floor characterisation
`discretize v ≤ v*255 < discretize v + 1` — so fractional parts of
`v*255` at or above one half are dropped, never rounded up. -/
theorem c9_discretize_truncates (v : ℚ) (h0 : 0 ≤ v) (h1 : v ≤ 1) :
    discretize v = ⌊v * 255⌋ ∧
    (0 ≤ discretize v ∧ discretize v ≤ 255) ∧
    (((discretize v : ℚ) ≤ v * 255) ∧ v * 255 < (discretize v : ℚ) + 1) := by
  have h255 : (0:ℚ) ≤ v * 255 := mul_nonneg h0 (by norm_num)
  have hle : v * 255 ≤ 255 := by nlinarith
  have hfl0 : (0:ℤ) ≤ ⌊v * 255⌋ := Int.floor_nonneg.mpr h255
  have hfl255 : ⌊v * 255⌋ ≤ 255 := by
    have h := Int.floor_le_floor hle
    simpa using h
  have heq : discretize v = ⌊v * 255⌋ := by
    unfold discretize rat_trunc
    rw [if_pos h255]
    exact Int.emod_eq_of_lt hfl0 (by omega)
  refine ⟨heq, ⟨heq ▸ hfl0, heq ▸ hfl255⟩, ?_, ?_⟩
  · rw [heq]
    exact_mod_cast Int.floor_le (v * 255)
  · rw [heq]
    exact_mod_cast Int.lt_floor_add_one (v * 255)

/-- Witness for C9: the amended theorem at `v = 1/2`; the emitted
8-bit value is the floor of `127.5`. -/
theorem c9_witness :
    (0:ℚ) ≤ 1/2 ∧ discretize (1/2) = ⌊(1/2 : ℚ) * 255⌋ :=
  ⟨by with_unfolding_all decide,
   (c9_discretize_truncates (1/2) (by with_unfolding_all decide)
      (by with_unfolding_all decide)).1⟩

/-- Counterexample to C9 as stated.  At `v = 0.999` the claimed
round-to-nearest quantisation gives 255 but `discretize` (the code's
`astype(uint8)` truncation) gives 254. -/
theorem c9_counterexample :
    discretize (999/1000) = 254 ∧
    spec_round_quantize (999/1000) = 255 ∧
    ¬ discretize (999/1000) = spec_round_quantize (999/1000) := by
  refine ⟨by with_unfolding_all decide, by with_unfolding_all decide,
    by with_unfolding_all decide⟩

/-- C10 (amended).  `cache_filename` hashes only
`(size, fps, seed, xyscale, tscale, levels, demean)`: two engines
agreeing on those fields receive identical cache paths for every batch
and for the statistics file even when their `xscale`/`yscale` differ.
Moreover, whenever additionally `xsize ≥ 2` and the `xscale`s differ (or
`ysize ≥ 2` and the `yscale`s differ), the coordinate arrays handed to
the noise sampler differ, so a sampler distinguishing those inputs
produces different noise for the two engines — which then alias the same
cache entry.  (With one-pixel axes the sampler inputs can coincide, see
the counterexample.) -/
theorem c10_cache_key_ignores_anisotropic_scales (p q : Params)
    (h1 : p.xsize = q.xsize) (h2 : p.ysize = q.ysize)
    (h3 : p.tsize = q.tsize) (h4 : p.fps = q.fps) (h5 : p.seed = q.seed)
    (h6 : p.xyscale = q.xyscale) (h7 : p.tscale = q.tscale)
    (h8 : p.levels = q.levels) (h9 : p.demean = q.demean) :
    (∀ b, cache_filename p b = cache_filename q b) ∧
    (p.xscale ≠ q.xscale → 2 ≤ p.xsize → 1 ≤ p.ysize →
      ∀ tps, perlin_args p tps ≠ perlin_args q tps) ∧
    (p.yscale ≠ q.yscale → 2 ≤ p.ysize →
      ∀ tps, perlin_args p tps ≠ perlin_args q tps) ∧
    (∀ tps, perlin_args p tps ≠ perlin_args q tps →
      ∃ g : Sampler, generate_frames g p tps ≠ generate_frames g q tps) := by
  refine ⟨?_, ?_, ?_, ?_⟩
  · intro b
    unfold cache_filename key_tuple
    rw [h1, h2, h3, h4, h5, h6, h7, h8, h9]
  · intro hxne hx2 hy1 tps hPA
    have hxe : xs_coords p = xs_coords q := congrArg PerlinArgs.xs hPA
    have hget := congrArg (fun l => l.getD 1 0) hxe
    simp only at hget
    unfold xs_coords at hget
    rw [getD_map_range _ _ _ _ (by omega : 1 < p.xsize)] at hget
    rw [getD_map_range _ _ _ _ (by omega : 1 < q.xsize)] at hget
    rw [← h2] at hget
    have hy0 : ((p.ysize : ℚ)) ≠ 0 := by
      have hy' : (0:ℚ) < (p.ysize : ℚ) := by exact_mod_cast hy1
      exact ne_of_gt hy'
    apply hxne
    rw [div_div, div_div, Nat.cast_one, one_div, one_div] at hget
    exact mul_left_cancel₀ hy0 (inv_injective hget)
  · intro hyne hy2 tps hPA
    have hye : ys_coords p = ys_coords q := congrArg PerlinArgs.ys hPA
    have hget := congrArg (fun l => l.getD 1 0) hye
    simp only at hget
    unfold ys_coords at hget
    rw [getD_map_range _ _ _ _ (by omega : 1 < p.ysize)] at hget
    rw [getD_map_range _ _ _ _ (by omega : 1 < q.ysize)] at hget
    rw [← h2] at hget
    have hy0 : ((p.ysize : ℚ)) ≠ 0 := by
      have hy' : (0:ℚ) < (p.ysize : ℚ) := by
        have : (1:ℕ) ≤ p.ysize := by omega
        exact_mod_cast this
      exact ne_of_gt hy'
    apply hyne
    rw [div_div, div_div, Nat.cast_one, one_div, one_div] at hget
    exact mul_left_cancel₀ hy0 (inv_injective hget)
  · intro tps hne
    set g : Sampler := fun a _ _ _ => if a = perlin_args p tps then (0:ℚ) else 1
      with hgdef
    refine ⟨g, ?_⟩
    intro hEq
    have h00 := congrArg (fun A : Arr => A.val 0 0 0) hEq
    simp only at h00
    have hl : (generate_frames g p tps).val 0 0 0 = 0 := by
      simp [generate_frames, hgdef]
    have hr : (generate_frames g q tps).val 0 0 0 = 1 := by
      simp only [generate_frames, hgdef]
      rw [if_neg (fun hc => hne hc.symm)]
    rw [hl, hr] at h00
    exact absurd h00 (by norm_num)

/-- Witness for C10: two engines differing only in `xscale` (2-pixel x
axis) share the statistics path, yet the sampler argument records for
any timepoint list differ. -/
theorem c10_witness :
    c10w_p.xscale ≠ c10w_q.xscale ∧
    cache_filename c10w_p CacheTag.stats = cache_filename c10w_q CacheTag.stats ∧
    perlin_args c10w_p [0] ≠ perlin_args c10w_q [0] :=
  ⟨by with_unfolding_all decide,
   (c10_cache_key_ignores_anisotropic_scales c10w_p c10w_q rfl rfl rfl rfl
      rfl rfl rfl rfl rfl).1 CacheTag.stats,
   (c10_cache_key_ignores_anisotropic_scales c10w_p c10w_q rfl rfl rfl rfl
      rfl rfl rfl rfl rfl).2.1 (by with_unfolding_all decide) (by decide)
      (by decide) [0]⟩

/-- Counterexample to the last clause of C10 as stated.  Two 1×1 pixel
engines differing only in `yscale`: every cache path coincides, but the
argument records passed to the noise sampler are also identical (all
coordinates are 0), so `generate_frames` produces the same — not
different — noise values for the two instances under any sampler. -/
theorem c10_counterexample :
    cache_filename c10_p CacheTag.stats = cache_filename c10_q CacheTag.stats ∧
    cache_filename c10_p (CacheTag.batch 0) = cache_filename c10_q (CacheTag.batch 0) ∧
    c10_p.yscale ≠ c10_q.yscale ∧
    perlin_args c10_p [0, 1] = perlin_args c10_q [0, 1] ∧
    (fun g : Sampler => generate_frames g c10_p [0, 1])
      = fun g : Sampler => generate_frames g c10_q [0, 1] := by
  have hargs : perlin_args c10_p [0, 1] = perlin_args c10_q [0, 1] := by
    with_unfolding_all decide
  refine ⟨rfl, rfl, by with_unfolding_all decide, hargs, ?_⟩
  funext g
  unfold generate_frames
  rw [hargs]

end ZebraNoise
